import Mathlib

/-!
Verification of the MediaOptimizer module (src/MediaOptimizer.ts).

The module is a pure function from (path, transform options, configuration)
to URL strings.  This file embeds its data model and operations in Lean:

* path sanitization (`sanitizePath`, DANGEROUS_PATTERNS, normalization),
  modelled over `List Char` with JavaScript regex tests translated to
  executable substring matchers;
* transform-option validation (the zod `TransformOptionsSchema`), with
  JavaScript numbers modelled as rationals so that integrality checks and
  fractional `dpr` values are expressible;
* the two provider adapters (`ImageKitProvider.generateUrl`,
  `SupabaseProvider.generateUrl`);
* the resolver entry points `getMediaUrl`, `getResponsiveSrcSet`,
  `getOptimizedMedia` over an optional configuration value that models the
  module-level configuration singleton.
-/

namespace MediaOptimizer

/-! ### Characters and low-level string helpers -/

/-- The NUL character, target of the JavaScript regex `\0`. -/
def nullChar : Char := Char.ofNat 0

/-- Model of `String.prototype.replace(/\\/g, "/")` at the character level. -/
def backslashToSlash (c : Char) : Char := if c = '\\' then '/' else c

/-- Character class trimmed by `String.prototype.trim()` (ECMAScript
WhiteSpace plus LineTerminator). -/
def isJsWhitespace (c : Char) : Bool :=
  c = '\t' || c = '\n' || c.toNat = 0x0b || c.toNat = 0x0c || c = '\r' || c = ' ' ||
  c.toNat = 0xa0 || c.toNat = 0x1680 || (0x2000 ≤ c.toNat && c.toNat ≤ 0x200a) ||
  c.toNat = 0x2028 || c.toNat = 0x2029 || c.toNat = 0x202f || c.toNat = 0x205f ||
  c.toNat = 0x3000 || c.toNat = 0xfeff

/-- Model of the global replacement `replace(/\/+/g, "/")`: every maximal
run of slashes is collapsed to a single slash. -/
def collapseSlashes : List Char → List Char
  | [] => []
  | [c] => [c]
  | a :: b :: rest =>
    if a = '/' ∧ b = '/' then collapseSlashes (b :: rest)
    else a :: collapseSlashes (b :: rest)

/-- Model of `replace(/^\/+/, "")`. -/
def dropLeadingSlashes (l : List Char) : List Char := l.dropWhile (· == '/')

/-- Model of `String.prototype.trim()`. -/
def trimChars (l : List Char) : List Char :=
  ((l.dropWhile isJsWhitespace).reverse.dropWhile isJsWhitespace).reverse

/-- Does the pattern match at the very front of the text, character by
character, under the character matcher `m`? -/
def matchHead (m : Char → Char → Bool) : List Char → List Char → Bool
  | [], _ => true
  | _ :: _, [] => false
  | p :: ps, c :: cs => m p c && matchHead m ps cs

/-- Does the pattern match anywhere in the text (the JavaScript
`RegExp.test` for a literal pattern)? -/
def matchSub (m : Char → Char → Bool) (pat : List Char) : List Char → Bool
  | [] => matchHead m pat []
  | c :: cs => matchHead m pat (c :: cs) || matchSub m pat cs

/-- Case-sensitive character matcher (a regex without the `i` flag). -/
def exactM : Char → Char → Bool := fun p c => p == c

/-- Case-insensitive matcher for a lower-case pattern (a regex with the
`i` flag): the text character is lowered before comparison. -/
def ciM : Char → Char → Bool := fun p c => p == c.toLower

/-- Model of the anchored test `/^\/+/.test(path)`. -/
def startsWithSlashL : List Char → Bool
  | '/' :: _ => true
  | _ => false

/-! ### DANGEROUS_PATTERNS and sanitizePath (src/MediaOptimizer.ts §5) -/

/-- The disjunction of the eight `DANGEROUS_PATTERNS` regex tests, in
source order: `..`, `.\`, `%2e%2e` (case-insensitive), `%252e`
(case-insensitive), leading slashes, NUL, angle brackets, and the Windows
character class. -/
def hasDangerousPattern (p : List Char) : Bool :=
  matchSub exactM ['.', '.'] p ||
  matchSub exactM ['.', '\\'] p ||
  matchSub ciM ['%', '2', 'e', '%', '2', 'e'] p ||
  matchSub ciM ['%', '2', '5', '2', 'e'] p ||
  startsWithSlashL p ||
  p.any (· == nullChar) ||
  (p.any (· == '<') || p.any (· == '>')) ||
  p.any (fun c => c == '<' || c == '>' || c == ':' || c == '"' || c == '|' ||
                  c == '?' || c == '*')

/-- The reasons `sanitizePath` throws `InvalidPathError`, one per throw
site in the source. -/
inductive SanitizeError
  | emptyPath
  | tooLong
  | dangerousPattern
  | emptyAfterSanitize
deriving DecidableEq, Repr

/-- The normalization pipeline of `sanitizePath`, in source order:
backslashes to slashes, duplicate slashes collapsed, leading slashes
removed, then `trim()`. -/
def normalizePath (p : List Char) : List Char :=
  trimChars (dropLeadingSlashes (collapseSlashes (p.map backslashToSlash)))

/-- `sanitizePath` over a character list: the length bound is
`LIMITS.maxPathLength = 500`. -/
def sanitizePathL (p : List Char) : Except SanitizeError (List Char) :=
  if p.isEmpty then .error .emptyPath
  else if 500 < p.length then .error .tooLong
  else if hasDangerousPattern p then .error .dangerousPattern
  else if (normalizePath p).isEmpty then .error .emptyAfterSanitize
  else .ok (normalizePath p)

/-- `sanitizePath` over `String` (the source signature). -/
def sanitizePath (s : String) : Except SanitizeError String :=
  (sanitizePathL s.data).map (fun l => String.mk l)

example : sanitizePath ("images/a.jpg") = .ok ("images/a.jpg") := rfl
example : sanitizePath ("/images/a.jpg") = .error .dangerousPattern := rfl
example : sanitizePath ("a\\b//c") = .ok ("a/b/c") := rfl
example : sanitizePath ("a/../b") = .error .dangerousPattern := rfl
example : sanitizePath ("a%2E%2eb") = .error .dangerousPattern := rfl
example : sanitizePath (" /a") = .ok ("/a") := rfl
example : sanitizePath ("  ") = .error .emptyAfterSanitize := rfl

/-! ### Transform options and validation (src/MediaOptimizer.ts §§2, 4) -/

/-- The `format` union type. -/
inductive ImgFormat
  | auto | webp | avif | jpg | png
deriving DecidableEq, Repr

/-- The `fit` union type. -/
inductive FitMode
  | cover | contain | fill
deriving DecidableEq, Repr

/-- The `focal` union type. -/
inductive FocalMode
  | auto | face | center | top | bottom | left | right
deriving DecidableEq, Repr

def parseFormat (s : String) : Option ImgFormat :=
  if s = "auto" then some .auto
  else if s = "webp" then some .webp
  else if s = "avif" then some .avif
  else if s = "jpg" then some .jpg
  else if s = "png" then some .png
  else none

def parseFit (s : String) : Option FitMode :=
  if s = "cover" then some .cover
  else if s = "contain" then some .contain
  else if s = "fill" then some .fill
  else none

def parseFocal (s : String) : Option FocalMode :=
  if s = "auto" then some .auto
  else if s = "face" then some .face
  else if s = "center" then some .center
  else if s = "top" then some .top
  else if s = "bottom" then some .bottom
  else if s = "left" then some .left
  else if s = "right" then some .right
  else none

def formatStr : ImgFormat → String
  | .auto => "auto" | .webp => "webp" | .avif => "avif" | .jpg => "jpg" | .png => "png"

def fitStr : FitMode → String
  | .cover => "cover" | .contain => "contain" | .fill => "fill"

/-- The fit mapping table of `ImageKitProvider.generateUrl`. -/
def fitTransform : FitMode → String
  | .cover => "c-maintain_ratio" | .contain => "c-at_max" | .fill => "c-force"

/-- The `focalMap` table of `ImageKitProvider.generateUrl`. -/
def focalTransform : FocalMode → String
  | .auto => "fo-auto" | .face => "fo-face" | .center => "fo-center" | .top => "fo-top"
  | .bottom => "fo-bottom" | .left => "fo-left" | .right => "fo-right"

/-- Raw `TransformOptions` as a caller supplies them, before zod
validation: numbers are JavaScript numbers (modelled as rationals) and
enum fields are strings. `none` is an absent key. -/
structure RawOpts where
  width : Option ℚ := none
  height : Option ℚ := none
  quality : Option ℚ := none
  format : Option String := none
  fit : Option String := none
  focal : Option String := none
  dpr : Option ℚ := none
  blur : Option ℚ := none
  sharpen : Option Bool := none
deriving DecidableEq, Repr

/-- `TransformOptions` after zod validation: integer fields carry their
natural-number value, enum fields their parsed variant; `dpr` stays a
rational (`z.number()` with no `.int()`). -/
structure TransformOpts where
  width : Option ℕ := none
  height : Option ℕ := none
  quality : Option ℕ := none
  format : Option ImgFormat := none
  fit : Option FitMode := none
  focal : Option FocalMode := none
  dpr : Option ℚ := none
  blur : Option ℕ := none
  sharpen : Option Bool := none
deriving DecidableEq, Repr

/-- Issues of one integer field: `z.number().int().min(lo).max(hi)`.
For a rational `q`, `Number.isInteger` is `q.den = 1`, in which case `q`
equals `q.num`, so the range check is the integer range check on `q.num`. -/
def intFieldErrs (name : String) (lo hi : ℤ) : Option ℚ → List String
  | none => []
  | some q => if q.den = 1 ∧ lo ≤ q.num ∧ q.num ≤ hi then [] else [name]

/-- Validated value of an integer field (meaningful only when the field
has no issues). -/
def intFieldVal : Option ℚ → Option ℕ
  | none => none
  | some q => some q.num.toNat

/-- Issues of the `dpr` field: `z.number().min(1).max(3)`, fractional
values allowed. -/
def dprFieldErrs (name : String) : Option ℚ → List String
  | none => []
  | some q => if (1 : ℚ) ≤ q ∧ q ≤ (3 : ℚ) then [] else [name]

/-- Issues of an enum field: `z.enum([...])`. -/
def enumFieldErrs {α : Type} (name : String) (parse : String → Option α) :
    Option String → List String
  | none => []
  | some s => match parse s with | some _ => [] | none => [name]

/-- Validated value of an enum field. -/
def enumFieldVal {α : Type} (parse : String → Option α) : Option String → Option α
  | none => none
  | some s => parse s

/-- The aggregated issue list of `TransformOptionsSchema.safeParse`, in
field declaration order. -/
def optionErrs (o : RawOpts) : List String :=
  intFieldErrs ("width") 1 4000 o.width ++
  intFieldErrs ("height") 1 4000 o.height ++
  intFieldErrs ("quality") 1 100 o.quality ++
  enumFieldErrs ("format") parseFormat o.format ++
  enumFieldErrs ("fit") parseFit o.fit ++
  enumFieldErrs ("focal") parseFocal o.focal ++
  dprFieldErrs ("dpr") o.dpr ++
  intFieldErrs ("blur") 1 100 o.blur

/-- `TransformOptionsSchema.safeParse`: every present field is checked
independently, issues are aggregated in field order, and on success the
values pass through unchanged. -/
def validateOptions (o : RawOpts) : Except (List String) TransformOpts :=
  if (optionErrs o).isEmpty then
    .ok
      { width := intFieldVal o.width
        height := intFieldVal o.height
        quality := intFieldVal o.quality
        format := enumFieldVal parseFormat o.format
        fit := enumFieldVal parseFit o.fit
        focal := enumFieldVal parseFocal o.focal
        dpr := o.dpr
        blur := intFieldVal o.blur
        sharpen := o.sharpen }
  else .error (optionErrs o)

/-- The `DEFAULTS` object-spread merge performed
by `getMediaUrl`: quality 80, fit cover, format auto, dpr 1 for absent
fields; present fields win. -/
def mergeDefaults (v : TransformOpts) : TransformOpts :=
  { v with
    quality := some (v.quality.getD 80)
    fit := some (v.fit.getD .cover)
    format := some (v.format.getD .auto)
    dpr := some (v.dpr.getD 1) }

/-! ### Provider adapters (src/MediaOptimizer.ts §6) -/

/-- Model of `Array.prototype.join(sep)`. -/
def joinSep (sep : String) : List String → String
  | [] => ""
  | [x] => x
  | x :: y :: rest => x ++ sep ++ joinSep sep (y :: rest)

/-- Model of `path.startsWith("/")`. -/
def startsWithSlash (s : String) : Bool := startsWithSlashL s.data

/-- Model of `path.slice(1)`. -/
def dropFirst (s : String) : String := String.mk s.data.tail

/-- Decimal rendering of a JavaScript number used in a `dpr-` directive;
integral values render as the integer, the rendering of fractional values
is abbreviated as `num/den` (no claim inspects it). -/
def ratRepr (q : ℚ) : String :=
  if q.den = 1 then q.num.repr else q.num.repr ++ "/" ++ Nat.repr q.den

/-- The transform directive list of `ImageKitProvider.generateUrl`, in
source order.  Guards model JavaScript truthiness: a numeric option equal
to 0 is falsy and skipped, `dpr` is additionally required to exceed 1,
`format` equal to `auto` is skipped, `sharpen` must be `true`. -/
def imagekitTransforms (o : TransformOpts) : List String :=
  (match o.width with
    | some w => if w = 0 then [] else ["w-" ++ Nat.repr w]
    | none => []) ++
  (match o.height with
    | some h => if h = 0 then [] else ["h-" ++ Nat.repr h]
    | none => []) ++
  (match o.quality with
    | some q => if q = 0 then [] else ["q-" ++ Nat.repr q]
    | none => []) ++
  (match o.fit with
    | some f => [fitTransform f]
    | none => []) ++
  (match o.focal with
    | some f => [focalTransform f]
    | none => []) ++
  (match o.format with
    | some f => if f = ImgFormat.auto then [] else ["f-" ++ formatStr f]
    | none => []) ++
  (match o.dpr with
    | some d => if 1 < d then ["dpr-" ++ ratRepr d] else []
    | none => []) ++
  (match o.blur with
    | some b => if b = 0 then [] else ["bl-" ++ Nat.repr b]
    | none => []) ++
  (match o.sharpen with
    | some true => ["e-sharpen"]
    | _ => [])

/-- `ImageKitProvider.generateUrl`. -/
def imagekitGenerateUrl (imageKitId : String) (path : String) (o : TransformOpts) : String :=
  let transforms := imagekitTransforms o
  let transformString := if transforms.isEmpty then ("") else ("tr:") ++ joinSep (",") transforms
  let cleanPath := if startsWithSlash path then path else ("/") ++ path
  "https://ik.imagekit.io/" ++ imageKitId ++ "/" ++ transformString ++ cleanPath

/-- The `URLSearchParams` of `SupabaseProvider.generateUrl`, as key-value
pairs in insertion order (keys are distinct, values need no escaping). -/
def supabaseParams (o : TransformOpts) : List (String × String) :=
  (match o.width with
    | some w => if w = 0 then [] else [(("width"), Nat.repr w)]
    | none => []) ++
  (match o.height with
    | some h => if h = 0 then [] else [(("height"), Nat.repr h)]
    | none => []) ++
  (match o.quality with
    | some q => if q = 0 then [] else [(("quality"), Nat.repr q)]
    | none => []) ++
  (match o.format with
    | some f => if f = ImgFormat.auto then [] else [(("format"), formatStr f)]
    | none => []) ++
  (match o.fit with
    | some f => [(("resize"), fitStr f)]
    | none => [])

/-- `SupabaseProvider.generateUrl`; `params.toString()` is empty exactly
when no parameter was set. -/
def supabaseGenerateUrl (supabaseUrl bucketName : String) (path : String)
    (o : TransformOpts) : String :=
  let cleanPath := if startsWithSlash path then dropFirst path else path
  let baseUrl := supabaseUrl ++ "/storage/v1/render/image/public/" ++ bucketName ++
    "/" ++ cleanPath
  let params := supabaseParams o
  let queryString := joinSep ("&") (params.map (fun kv => kv.1 ++ "=" ++ kv.2))
  if params.isEmpty then baseUrl else baseUrl ++ "?" ++ queryString

/-! ### Configuration and resolver (src/MediaOptimizer.ts §§7, 8) -/

/-- `MediaConfig` as held by the module singleton after `configureMedia`. -/
structure MediaConfig where
  imageKitId : String
  supabaseUrl : String
  bucketName : String
  forceBackupMode : Bool := false
  debug : Bool := false
deriving DecidableEq, Repr

/-- The `provider` discriminator of `OptimizedMedia`. -/
inductive ProviderTag
  | imagekit | supabase
deriving DecidableEq, Repr

/-- The `OptimizedMedia` result record. -/
structure OptimizedMedia where
  src : String
  fallbackSrc : String
  srcSet : Option String := none
  provider : ProviderTag
deriving DecidableEq, Repr

/-- The error taxonomy of the resolution entry points: `ensureConfigured`,
`sanitizePath` and option validation each throw their own error class. -/
inductive MediaError
  | notConfigured
  | invalidPath (reason : SanitizeError)
  | invalidOptions (fields : List String)
deriving DecidableEq, Repr

/-- The body of `getMediaUrl` after `ensureConfigured` and `sanitizePath`
succeeded: validate options, merge defaults, build both provider URLs,
then apply the force-backup selection policy. -/
def resolveWithConfig (c : MediaConfig) (safePath : String) (options : RawOpts) :
    Except MediaError OptimizedMedia :=
  match validateOptions options with
  | .error errs => .error (.invalidOptions errs)
  | .ok parsed =>
    let opts := mergeDefaults parsed
    let primary := imagekitGenerateUrl c.imageKitId safePath opts
    let backup := supabaseGenerateUrl c.supabaseUrl c.bucketName safePath opts
    if c.forceBackupMode then
      .ok { src := backup, fallbackSrc := backup, provider := .supabase }
    else
      .ok { src := primary, fallbackSrc := backup, provider := .imagekit }

/-- `getMediaUrl`.  The optional configuration argument models the module
singleton; `none` is the unconfigured state rejected by `ensureConfigured`. -/
def getMediaUrl (cfg : Option MediaConfig) (path : String)
    (options : RawOpts) : Except MediaError OptimizedMedia :=
  match cfg with
  | none => .error .notConfigured
  | some c =>
    match sanitizePath path with
    | .error e => .error (.invalidPath e)
    | .ok safePath => resolveWithConfig c safePath options

/-- `RESPONSIVE_WIDTHS`, the default srcset breakpoints. -/
def RESPONSIVE_WIDTHS : List ℕ := [320, 640, 768, 1024, 1280, 1536, 1920]

/-- The per-width option spread of `getResponsiveSrcSet`: the base options with `width` replaced. -/
def setWidth (o : RawOpts) (w : ℕ) : RawOpts := { o with width := some (w : ℚ) }

/-- The per-width loop of `getResponsiveSrcSet`: for each width call
`getMediaUrl` on the already-sanitized path with the width spread in, keep its `src`, and format
the entry; a thrown error aborts the whole build. -/
def srcSetEntries (c : MediaConfig) (safePath : String) (options : RawOpts) :
    List ℕ → Except MediaError (List String)
  | [] => .ok []
  | w :: ws =>
    match getMediaUrl (some c) safePath (setWidth options w) with
    | .error e => .error e
    | .ok r =>
      match srcSetEntries c safePath options ws with
      | .error e => .error e
      | .ok rest => .ok ((r.src ++ " " ++ Nat.repr w ++ "w") :: rest)

/-- `getResponsiveSrcSet`. -/
def getResponsiveSrcSet (cfg : Option MediaConfig) (path : String)
    (options : RawOpts) (widths : List ℕ) : Except MediaError String :=
  match cfg with
  | none => .error .notConfigured
  | some c =>
    match sanitizePath path with
    | .error e => .error (.invalidPath e)
    | .ok safePath =>
      match srcSetEntries c safePath options widths with
      | .error e => .error e
      | .ok entries => .ok (joinSep (", ") entries)

/-- `getOptimizedMedia`: `getMediaUrl` then `getResponsiveSrcSet` with the
default widths, with the srcset attached to the result. -/
def getOptimizedMedia (cfg : Option MediaConfig) (path : String)
    (options : RawOpts) : Except MediaError OptimizedMedia :=
  match getMediaUrl cfg path options with
  | .error e => .error e
  | .ok result =>
    match getResponsiveSrcSet cfg path options RESPONSIVE_WIDTHS with
    | .error e => .error e
    | .ok srcSet => .ok { result with srcSet := some srcSet }

example :
    (getMediaUrl
      (some { imageKitId := ("demo"), supabaseUrl := ("https://xyz.supabase.co"),
              bucketName := ("uploads") })
      ("images/a.jpg")
      { width := some 800, quality := some 85, format := some ("webp"),
        fit := some ("cover") }).map OptimizedMedia.src
    = .ok ("https://ik.imagekit.io/demo/tr:w-800,q-85,c-maintain_ratio,f-webp/images/a.jpg") := rfl

example :
    (getMediaUrl
      (some { imageKitId := ("demo"), supabaseUrl := ("https://xyz.supabase.co"),
              bucketName := ("uploads"), forceBackupMode := true })
      ("x.jpg") {})
    = .ok { src := ("https://xyz.supabase.co/storage/v1/render/image/public/uploads/x.jpg?quality=80&resize=cover"),
            fallbackSrc := ("https://xyz.supabase.co/storage/v1/render/image/public/uploads/x.jpg?quality=80&resize=cover"),
            provider := .supabase } := rfl

/-! ### Lemmas about the substring matchers -/

theorem matchSub_nilPat (m : Char → Char → Bool) : ∀ l : List Char, matchSub m [] l = true
  | [] => rfl
  | _ :: _ => by simp [matchSub, matchHead]

theorem matchHead_append (m : Char → Char → Bool) :
    ∀ (pat l v : List Char), matchHead m pat l = true → matchHead m pat (l ++ v) = true := by
  intro pat
  induction pat with
  | nil => intro l v _; rfl
  | cons p ps ih =>
    intro l v h
    cases l with
    | nil => simp [matchHead] at h
    | cons c cs =>
      simp only [matchHead, Bool.and_eq_true] at h
      simp only [List.cons_append, matchHead, Bool.and_eq_true]
      exact ⟨h.1, ih cs v h.2⟩

theorem matchSub_append_right (m : Char → Char → Bool) (pat : List Char) :
    ∀ l v : List Char, matchSub m pat l = true → matchSub m pat (l ++ v) = true := by
  intro l
  induction l with
  | nil =>
    intro v h
    cases pat with
    | nil => exact matchSub_nilPat m v
    | cons p ps => simp [matchSub, matchHead] at h
  | cons c cs ih =>
    intro v h
    simp only [matchSub, Bool.or_eq_true] at h
    simp only [List.cons_append, matchSub, Bool.or_eq_true]
    rcases h with h | h
    · exact Or.inl (by simpa [List.cons_append] using matchHead_append m pat (c :: cs) v h)
    · exact Or.inr (ih v h)

theorem matchSub_append_left (m : Char → Char → Bool) (pat : List Char) :
    ∀ u l : List Char, matchSub m pat l = true → matchSub m pat (u ++ l) = true := by
  intro u
  induction u with
  | nil => intro l h; simpa using h
  | cons c u ih =>
    intro l h
    simp only [List.cons_append, matchSub, Bool.or_eq_true]
    exact Or.inr (ih l h)

theorem matchSub_parts (m : Char → Char → Bool) (pat u t v : List Char)
    (h : matchSub m pat t = true) : matchSub m pat (u ++ t ++ v) = true := by
  rw [List.append_assoc]
  exact matchSub_append_left m pat u (t ++ v) (matchSub_append_right m pat t v h)

theorem matchHead_exact_mem : ∀ pat l : List Char, matchHead exactM pat l = true →
    ∀ x ∈ pat, x ∈ l := by
  intro pat
  induction pat with
  | nil => intro l _ x hx; simp at hx
  | cons p ps ih =>
    intro l h x hx
    cases l with
    | nil => simp [matchHead] at h
    | cons c cs =>
      simp only [matchHead, exactM, Bool.and_eq_true, beq_iff_eq] at h
      rcases List.mem_cons.mp hx with rfl | hx
      · exact List.mem_cons.mpr (Or.inl h.1)
      · exact List.mem_cons_of_mem c (ih cs h.2 x hx)

theorem matchSub_exact_mem : ∀ l pat : List Char, matchSub exactM pat l = true →
    ∀ x ∈ pat, x ∈ l := by
  intro l
  induction l with
  | nil =>
    intro pat h x hx
    cases pat with
    | nil => simp at hx
    | cons p ps => simp [matchSub, matchHead] at h
  | cons c cs ih =>
    intro pat h x hx
    simp only [matchSub, Bool.or_eq_true] at h
    rcases h with h | h
    · exact matchHead_exact_mem pat (c :: cs) h x hx
    · exact List.mem_cons_of_mem c (ih pat h x hx)

/-! ### Lemmas about collapseSlashes -/

theorem collapse_cons : ∀ (l : List Char) (c : Char),
    ∃ t, collapseSlashes (c :: l) = c :: t := by
  intro l
  induction l with
  | nil => intro c; exact ⟨[], rfl⟩
  | cons b rest ih =>
    intro c
    by_cases h : c = '/' ∧ b = '/'
    · obtain ⟨t, ht⟩ := ih b
      obtain ⟨hc, hb⟩ := h
      subst hc; subst hb
      exact ⟨t, by simpa [collapseSlashes] using ht⟩
    · exact ⟨collapseSlashes (b :: rest), by simp [collapseSlashes, h]⟩

theorem matchSub_cons (m : Char → Char → Bool) (pat : List Char) (c : Char) (cs : List Char) :
    matchSub m pat (c :: cs) = (matchHead m pat (c :: cs) || matchSub m pat cs) := rfl

theorem collapse_sublist : ∀ l : List Char, List.Sublist (collapseSlashes l) l := by
  intro l
  induction l with
  | nil => exact List.Sublist.refl _
  | cons a l ih =>
    cases l with
    | nil => exact List.Sublist.refl _
    | cons b rest =>
      by_cases h : a = '/' ∧ b = '/'
      · rw [show collapseSlashes (a :: b :: rest) = collapseSlashes (b :: rest) from by
          simp [collapseSlashes, h]]
        exact List.Sublist.cons a ih
      · rw [show collapseSlashes (a :: b :: rest) = a :: collapseSlashes (b :: rest) from by
          simp [collapseSlashes, h]]
        exact List.Sublist.cons₂ a ih

theorem matchHead_collapse (m : Char → Char → Bool) :
    ∀ l pat : List Char, (∀ x ∈ pat, m x '/' = false) →
      matchHead m pat (collapseSlashes l) = true → matchHead m pat l = true := by
  intro l
  induction l with
  | nil => intro pat _ h; exact h
  | cons a l ih =>
    intro pat hp h
    cases l with
    | nil => exact h
    | cons b rest =>
      by_cases hab : a = '/' ∧ b = '/'
      · rw [show collapseSlashes (a :: b :: rest) = collapseSlashes (b :: rest) from by
          simp [collapseSlashes, hab]] at h
        have h' := ih pat hp h
        cases pat with
        | nil => rfl
        | cons p ps =>
          exfalso
          simp only [matchHead, Bool.and_eq_true] at h'
          have := hp p (List.mem_cons_self p ps)
          rw [hab.2] at h'
          rw [this] at h'
          exact Bool.false_ne_true h'.1
      · rw [show collapseSlashes (a :: b :: rest) = a :: collapseSlashes (b :: rest) from by
          simp [collapseSlashes, hab]] at h
        cases pat with
        | nil => rfl
        | cons p ps =>
          simp only [matchHead, Bool.and_eq_true] at h ⊢
          exact ⟨h.1, ih ps (fun x hx => hp x (List.mem_cons_of_mem p hx)) h.2⟩

theorem matchSub_collapse (m : Char → Char → Bool) :
    ∀ l pat : List Char, (∀ x ∈ pat, m x '/' = false) →
      matchSub m pat (collapseSlashes l) = true → matchSub m pat l = true := by
  intro l
  induction l with
  | nil => intro pat _ h; exact h
  | cons a l ih =>
    intro pat hp h
    cases l with
    | nil => exact h
    | cons b rest =>
      by_cases hab : a = '/' ∧ b = '/'
      · rw [show collapseSlashes (a :: b :: rest) = collapseSlashes (b :: rest) from by
          simp [collapseSlashes, hab]] at h
        have h' := ih pat hp h
        rw [matchSub_cons m pat b rest, Bool.or_eq_true] at h'
        rw [matchSub_cons m pat a (b :: rest), Bool.or_eq_true]
        rcases h' with h' | h'
        · cases pat with
          | nil => exact Or.inl rfl
          | cons p ps =>
            exfalso
            simp only [matchHead, Bool.and_eq_true] at h'
            have := hp p (List.mem_cons_self p ps)
            rw [hab.2, this] at h'
            exact Bool.false_ne_true h'.1
        · exact Or.inr (by
            rw [matchSub_cons m pat b rest, Bool.or_eq_true]
            exact Or.inr h')
      · rw [show collapseSlashes (a :: b :: rest) = a :: collapseSlashes (b :: rest) from by
          simp [collapseSlashes, hab]] at h
        rw [matchSub_cons m pat a (collapseSlashes (b :: rest)), Bool.or_eq_true] at h
        rw [matchSub_cons m pat a (b :: rest), Bool.or_eq_true]
        rcases h with h | h
        · cases pat with
          | nil => exact Or.inl rfl
          | cons p ps =>
            simp only [matchHead, Bool.and_eq_true] at h ⊢
            exact Or.inl ⟨h.1, matchHead_collapse m (b :: rest) ps
              (fun x hx => hp x (List.mem_cons_of_mem p hx)) h.2⟩
        · exact Or.inr (ih pat hp h)

theorem collapse_noDup : ∀ l : List Char,
    matchSub exactM ['/', '/'] (collapseSlashes l) = false := by
  intro l
  induction l with
  | nil => rfl
  | cons a l ih =>
    cases l with
    | nil => simp [collapseSlashes, matchSub, matchHead, Bool.and_false]
    | cons b rest =>
      by_cases hab : a = '/' ∧ b = '/'
      · rw [show collapseSlashes (a :: b :: rest) = collapseSlashes (b :: rest) from by
          simp [collapseSlashes, hab]]
        exact ih
      · rw [show collapseSlashes (a :: b :: rest) = a :: collapseSlashes (b :: rest) from by
          simp [collapseSlashes, hab]]
        obtain ⟨t, ht⟩ := collapse_cons rest b
        rw [ht]
        rw [ht] at ih
        simp only [matchSub, matchHead, exactM, Bool.or_eq_false_iff,
          Bool.and_eq_false_iff] at ih ⊢
        refine ⟨?_, ih⟩
        by_cases ha : a = '/'
        · subst ha
          have hb : ¬ b = '/' := fun hb => hab ⟨rfl, hb⟩
          exact Or.inr (Or.inl (by simpa using fun h' => hb h'.symm))
        · exact Or.inl (by simpa using fun h' => ha h'.symm)

theorem collapse_eq_self : ∀ l : List Char,
    matchSub exactM ['/', '/'] l = false → collapseSlashes l = l := by
  intro l
  induction l with
  | nil => intro _; rfl
  | cons a l ih =>
    intro h
    cases l with
    | nil => rfl
    | cons b rest =>
      simp only [matchSub, matchHead, exactM, Bool.or_eq_false_iff,
        Bool.and_eq_false_iff] at h
      have hab : ¬(a = '/' ∧ b = '/') := by
        rintro ⟨rfl, rfl⟩
        rcases h.1 with h' | h'
        · simp at h'
        · rcases h' with h' | h'
          · simp at h'
          · simp [matchHead] at h'
      have htail : matchSub exactM ['/', '/'] (b :: rest) = false := by
        simp only [matchSub, matchHead, exactM, Bool.or_eq_false_iff,
          Bool.and_eq_false_iff]
        exact h.2
      rw [show collapseSlashes (a :: b :: rest) = a :: collapseSlashes (b :: rest) from by
        simp [collapseSlashes, hab]]
      rw [ih htail]

/-! ### Lemmas about the backslash replacement -/

theorem matchHead_mapB (m : Char → Char → Bool) :
    ∀ l pat : List Char, (∀ x ∈ pat, m x '/' = false) →
      matchHead m pat (l.map backslashToSlash) = true → matchHead m pat l = true := by
  intro l
  induction l with
  | nil =>
    intro pat hp h
    cases pat with
    | nil => rfl
    | cons p ps => simp [matchHead] at h
  | cons c cs ih =>
    intro pat hp h
    cases pat with
    | nil => rfl
    | cons p ps =>
      rw [List.map_cons] at h
      simp only [matchHead, Bool.and_eq_true] at h ⊢
      obtain ⟨h1, h2⟩ := h
      refine ⟨?_, ih ps (fun x hx => hp x (List.mem_cons_of_mem p hx)) h2⟩
      by_cases hc : c = '\\'
      · exfalso
        subst hc
        rw [show backslashToSlash '\\' = '/' from rfl] at h1
        rw [hp p (List.mem_cons_self p ps)] at h1
        exact Bool.false_ne_true h1
      · rwa [show backslashToSlash c = c from by simp [backslashToSlash, hc]] at h1

theorem matchSub_mapB (m : Char → Char → Bool) :
    ∀ l pat : List Char, (∀ x ∈ pat, m x '/' = false) →
      matchSub m pat (l.map backslashToSlash) = true → matchSub m pat l = true := by
  intro l
  induction l with
  | nil => intro pat _ h; exact h
  | cons c cs ih =>
    intro pat hp h
    rw [List.map_cons, matchSub_cons m pat _ _, Bool.or_eq_true] at h
    rw [matchSub_cons m pat c cs, Bool.or_eq_true]
    rcases h with h | h
    · exact Or.inl (matchHead_mapB m (c :: cs) pat hp (by rwa [List.map_cons]))
    · exact Or.inr (ih pat hp h)

/-- `backslashToSlash` is the identity on a list without backslashes. -/
theorem mapB_eq_self (l : List Char) (h : ∀ c ∈ l, c ≠ '\\') :
    l.map backslashToSlash = l := by
  induction l with
  | nil => rfl
  | cons c cs ih =>
    rw [List.map_cons]
    rw [show backslashToSlash c = c from by
      simp [backslashToSlash, h c (List.mem_cons_self c cs)]]
    rw [ih (fun x hx => h x (List.mem_cons_of_mem c hx))]

/-! ### Lemmas about dropWhile and trim -/

theorem dropWhile_parts (q : Char → Bool) :
    ∀ l : List Char, ∃ u, u ++ l.dropWhile q = l := by
  intro l
  induction l with
  | nil => exact ⟨[], rfl⟩
  | cons c cs ih =>
    cases hq : q c with
    | true =>
      obtain ⟨u, hu⟩ := ih
      refine ⟨c :: u, ?_⟩
      rw [List.dropWhile_cons, if_pos hq, List.cons_append, hu]
    | false =>
      exact ⟨[], by rw [List.dropWhile_cons, if_neg (by simp [hq]), List.nil_append]⟩

theorem dropWhile_head_false (q : Char → Bool) :
    ∀ l r : List Char, ∀ c : Char, l.dropWhile q = c :: r → q c = false := by
  intro l
  induction l with
  | nil => intro r c h; simp at h
  | cons a as ih =>
    intro r c h
    cases ha : q a with
    | true =>
      rw [List.dropWhile_cons, if_pos ha] at h
      exact ih r c h
    | false =>
      rw [List.dropWhile_cons, if_neg (by simp [ha])] at h
      cases h
      exact ha

theorem dropWhile_dropWhile (q : Char → Bool) (l : List Char) :
    (l.dropWhile q).dropWhile q = l.dropWhile q := by
  cases h : l.dropWhile q with
  | nil => simp
  | cons c r =>
    rw [List.dropWhile_cons, if_neg (by simp [dropWhile_head_false q l r c h])]

theorem trim_parts (l : List Char) : ∃ u v, l = u ++ trimChars l ++ v := by
  obtain ⟨u, hu⟩ := dropWhile_parts isJsWhitespace l
  obtain ⟨w, hw⟩ := dropWhile_parts isJsWhitespace (l.dropWhile isJsWhitespace).reverse
  have hA : l.dropWhile isJsWhitespace = trimChars l ++ w.reverse := by
    have hrev := congrArg List.reverse hw
    simp only [List.reverse_append, List.reverse_reverse] at hrev
    exact hrev.symm
  refine ⟨u, w.reverse, ?_⟩
  calc l = u ++ l.dropWhile isJsWhitespace := hu.symm
    _ = u ++ (trimChars l ++ w.reverse) := by rw [hA]
    _ = u ++ trimChars l ++ w.reverse := by rw [List.append_assoc]

theorem matchSub_trim (m : Char → Char → Bool) (pat l : List Char)
    (h : matchSub m pat (trimChars l) = true) : matchSub m pat l = true := by
  obtain ⟨u, v, huv⟩ := trim_parts l
  rw [huv]
  exact matchSub_parts m pat u (trimChars l) v h

theorem matchSub_dropLeading (m : Char → Char → Bool) (pat l : List Char)
    (h : matchSub m pat (dropLeadingSlashes l) = true) : matchSub m pat l = true := by
  obtain ⟨u, hu⟩ := dropWhile_parts (· == '/') l
  rw [← hu]
  exact matchSub_append_left m pat u (dropLeadingSlashes l) h

theorem mem_of_mem_trim (l : List Char) (c : Char) (h : c ∈ trimChars l) : c ∈ l := by
  obtain ⟨u, v, huv⟩ := trim_parts l
  rw [huv]
  exact List.mem_append.mpr (Or.inl (List.mem_append.mpr (Or.inr h)))

theorem mem_of_mem_dropLeading (l : List Char) (c : Char)
    (h : c ∈ dropLeadingSlashes l) : c ∈ l := by
  obtain ⟨u, hu⟩ := dropWhile_parts (· == '/') l
  rw [← hu]
  exact List.mem_append.mpr (Or.inr h)

theorem length_trim_le (l : List Char) : (trimChars l).length ≤ l.length := by
  obtain ⟨u, v, huv⟩ := trim_parts l
  conv_rhs => rw [huv]
  simp only [List.length_append]
  omega

theorem length_dropLeading_le (l : List Char) :
    (dropLeadingSlashes l).length ≤ l.length := by
  obtain ⟨u, hu⟩ := dropWhile_parts (· == '/') l
  simp only [dropLeadingSlashes]
  conv_rhs => rw [← hu]
  simp only [List.length_append]
  omega

theorem trim_trim (l : List Char) : trimChars (trimChars l) = trimChars l := by
  have hfront : (trimChars l).dropWhile isJsWhitespace = trimChars l := by
    cases h : trimChars l with
    | nil => simp
    | cons c t =>
      obtain ⟨w, hw⟩ := dropWhile_parts isJsWhitespace (l.dropWhile isJsWhitespace).reverse
      have hA : l.dropWhile isJsWhitespace = trimChars l ++ w.reverse := by
        have hrev := congrArg List.reverse hw
        simp only [List.reverse_append, List.reverse_reverse] at hrev
        exact hrev.symm
      have hc : isJsWhitespace c = false := by
        apply dropWhile_head_false isJsWhitespace l (t ++ w.reverse) c
        rw [hA, h, List.cons_append]
      rw [List.dropWhile_cons, if_neg (by simp [hc])]
  have hback : (trimChars l).reverse.dropWhile isJsWhitespace = (trimChars l).reverse := by
    have hrw : (trimChars l).reverse
        = (l.dropWhile isJsWhitespace).reverse.dropWhile isJsWhitespace := by
      simp [trimChars]
    rw [hrw, dropWhile_dropWhile]
  show (((trimChars l).dropWhile isJsWhitespace).reverse.dropWhile isJsWhitespace).reverse
      = trimChars l
  rw [hfront, hback, List.reverse_reverse]

/-! ### Lemmas about sanitizePath -/

theorem any_false_forall (f : Char → Bool) (l : List Char) (h : l.any f = false) :
    ∀ c ∈ l, f c = false := by
  intro c hc
  cases hfc : f c with
  | false => rfl
  | true =>
    exfalso
    have : l.any f = true := List.any_eq_true.mpr ⟨c, hc, hfc⟩
    rw [h] at this
    exact Bool.false_ne_true this

theorem any_eq_false_of_forall (f : Char → Bool) (l : List Char)
    (h : ∀ c ∈ l, f c = false) : l.any f = false := by
  cases hb : l.any f with
  | false => rfl
  | true =>
    obtain ⟨c, hc, hfc⟩ := List.any_eq_true.mp hb
    rw [h c hc] at hfc
    exact absurd hfc (by simp)

theorem sanitizePathL_ok_iff (p r : List Char) :
    sanitizePathL p = .ok r ↔
      p.isEmpty = false ∧ p.length ≤ 500 ∧ hasDangerousPattern p = false ∧
      (normalizePath p).isEmpty = false ∧ normalizePath p = r := by
  unfold sanitizePathL
  split_ifs with h1 h2 h3 h4
  · simp [h1]
  · simp [Nat.not_le.mpr h2]
  · simp [h3]
  · simp [h4]
  · have e1 : p.isEmpty = false := by revert h1; cases p.isEmpty <;> simp
    have e2 : p.length ≤ 500 := Nat.not_lt.mp h2
    have e3 : hasDangerousPattern p = false := by
      revert h3; cases hasDangerousPattern p <;> simp
    have e4 : (normalizePath p).isEmpty = false := by
      revert h4; cases (normalizePath p).isEmpty <;> simp
    simp [e1, e2, e3, e4]

theorem dangerous_parts (p : List Char) (h : hasDangerousPattern p = false) :
    matchSub exactM ['.', '.'] p = false ∧
    matchSub exactM ['.', '\\'] p = false ∧
    matchSub ciM ['%', '2', 'e', '%', '2', 'e'] p = false ∧
    matchSub ciM ['%', '2', '5', '2', 'e'] p = false ∧
    startsWithSlashL p = false ∧
    (∀ c ∈ p, c ≠ nullChar) ∧
    (∀ c ∈ p, c ≠ '<' ∧ c ≠ '>' ∧ c ≠ ':' ∧ c ≠ '"' ∧ c ≠ '|' ∧ c ≠ '?' ∧ c ≠ '*') := by
  simp only [hasDangerousPattern, Bool.or_eq_false_iff] at h
  obtain ⟨⟨⟨⟨⟨⟨⟨h1, h2⟩, h3⟩, h4⟩, h5⟩, h6⟩, -⟩, h8⟩ := h
  refine ⟨h1, h2, h3, h4, h5, ?_, ?_⟩
  · intro c hc
    have := any_false_forall _ p h6 c hc
    exact beq_eq_false_iff_ne.mp this
  · intro c hc
    have := any_false_forall _ p h8 c hc
    simp only [Bool.or_eq_false_iff, beq_eq_false_iff_ne, ne_eq] at this
    obtain ⟨⟨⟨⟨⟨⟨ha, hb⟩, hc'⟩, hd⟩, he⟩, hf⟩, hg⟩ := this
    exact ⟨ha, hb, hc', hd, he, hf, hg⟩

theorem matchSub_normalize (m : Char → Char → Bool) (pat p : List Char)
    (hp : ∀ x ∈ pat, m x '/' = false) (h : matchSub m pat p = false) :
    matchSub m pat (normalizePath p) = false := by
  cases hb : matchSub m pat (normalizePath p) with
  | false => rfl
  | true =>
    exfalso
    unfold normalizePath at hb
    have h1 := matchSub_trim m pat _ hb
    have h2 := matchSub_dropLeading m pat _ h1
    have h3 := matchSub_collapse m _ pat hp h2
    have h4 := matchSub_mapB m p pat hp h3
    rw [h] at h4
    exact Bool.false_ne_true h4

theorem normalize_noDupSlash (p : List Char) :
    matchSub exactM ['/', '/'] (normalizePath p) = false := by
  cases hb : matchSub exactM ['/', '/'] (normalizePath p) with
  | false => rfl
  | true =>
    exfalso
    unfold normalizePath at hb
    have h1 := matchSub_trim _ _ _ hb
    have h2 := matchSub_dropLeading _ _ _ h1
    rw [collapse_noDup _] at h2
    exact Bool.false_ne_true h2

theorem mem_normalize_subset (p : List Char) (c : Char) (h : c ∈ normalizePath p) :
    c ∈ p.map backslashToSlash := by
  unfold normalizePath at h
  have h1 := mem_of_mem_trim _ _ h
  have h2 := mem_of_mem_dropLeading _ _ h1
  exact (collapse_sublist _).subset h2

theorem length_normalize_le (p : List Char) : (normalizePath p).length ≤ p.length := by
  unfold normalizePath
  have t1 := length_trim_le (dropLeadingSlashes (collapseSlashes (p.map backslashToSlash)))
  have t2 := length_dropLeading_le (collapseSlashes (p.map backslashToSlash))
  have t3 := (collapse_sublist (p.map backslashToSlash)).length_le
  rw [List.length_map] at t3
  omega

/-- All invariants of a successful sanitization output. -/
theorem sanitize_ok_props (p r : List Char) (h : sanitizePathL p = .ok r) :
    r ≠ [] ∧ r.length ≤ 500 ∧
    matchSub exactM ['.', '.'] r = false ∧
    matchSub ciM ['%', '2', 'e', '%', '2', 'e'] r = false ∧
    matchSub ciM ['%', '2', '5', '2', 'e'] r = false ∧
    matchSub exactM ['/', '/'] r = false ∧
    (∀ c ∈ r, c ≠ '\\' ∧ c ≠ nullChar ∧ c ≠ '<' ∧ c ≠ '>' ∧ c ≠ ':' ∧ c ≠ '"' ∧
      c ≠ '|' ∧ c ≠ '?' ∧ c ≠ '*') ∧
    trimChars r = r := by
  rw [sanitizePathL_ok_iff] at h
  obtain ⟨hne, hlen, hdang, hnne, hnorm⟩ := h
  obtain ⟨d1, d2, d3, d4, d5, d6, d7⟩ := dangerous_parts p hdang
  subst hnorm
  refine ⟨?_, ?_, ?_, ?_, ?_, ?_, ?_, ?_⟩
  · intro hnil; rw [hnil] at hnne; simp at hnne
  · exact le_trans (length_normalize_le p) hlen
  · exact matchSub_normalize exactM _ p (by decide) d1
  · exact matchSub_normalize ciM _ p (by decide) d3
  · exact matchSub_normalize ciM _ p (by decide) d4
  · exact normalize_noDupSlash p
  · intro c hc
    obtain ⟨c₀, hc₀, hcb⟩ := List.mem_map.mp (mem_normalize_subset p c hc)
    subst hcb
    by_cases hb : c₀ = '\\'
    · subst hb
      rw [show backslashToSlash '\\' = '/' from rfl]
      refine ⟨by decide, by decide, by decide, by decide, by decide, by decide,
        by decide, by decide, by decide⟩
    · rw [show backslashToSlash c₀ = c₀ from by simp [backslashToSlash, hb]]
      exact ⟨hb, d6 c₀ hc₀, (d7 c₀ hc₀).1, (d7 c₀ hc₀).2.1, (d7 c₀ hc₀).2.2.1,
        (d7 c₀ hc₀).2.2.2.1, (d7 c₀ hc₀).2.2.2.2.1, (d7 c₀ hc₀).2.2.2.2.2.1,
        (d7 c₀ hc₀).2.2.2.2.2.2⟩
  · unfold normalizePath
    exact trim_trim _

/-- When a successful sanitization output does not begin with a slash,
sanitizing again succeeds and is the identity. -/
theorem sanitize_fix (p r : List Char) (h : sanitizePathL p = .ok r)
    (hs : startsWithSlashL r = false) : sanitizePathL r = .ok r := by
  obtain ⟨hne, hlen, m1, m2, m3, mdup, hchar, htrim⟩ := sanitize_ok_props p r h
  have hnb : ∀ c ∈ r, c ≠ '\\' := fun c hc => (hchar c hc).1
  have hdot_bs : matchSub exactM ['.', '\\'] r = false := by
    cases hb : matchSub exactM ['.', '\\'] r with
    | false => rfl
    | true =>
      exfalso
      have hmem := matchSub_exact_mem r ['.', '\\'] hb '\\' (by decide)
      exact hnb '\\' hmem rfl
  have hdang : hasDangerousPattern r = false := by
    simp only [hasDangerousPattern, Bool.or_eq_false_iff]
    refine ⟨⟨⟨⟨⟨⟨⟨m1, hdot_bs⟩, m2⟩, m3⟩, hs⟩, ?_⟩, ⟨?_, ?_⟩⟩, ?_⟩
    · exact any_eq_false_of_forall _ r
        (fun c hc => beq_eq_false_iff_ne.mpr (hchar c hc).2.1)
    · exact any_eq_false_of_forall _ r
        (fun c hc => beq_eq_false_iff_ne.mpr (hchar c hc).2.2.1)
    · exact any_eq_false_of_forall _ r
        (fun c hc => beq_eq_false_iff_ne.mpr (hchar c hc).2.2.2.1)
    · refine any_eq_false_of_forall _ r (fun c hc => ?_)
      obtain ⟨-, -, h3, h4, h5, h6, h7, h8, h9⟩ := hchar c hc
      simp only [Bool.or_eq_false_iff, beq_eq_false_iff_ne, ne_eq]
      exact ⟨⟨⟨⟨⟨⟨h3, h4⟩, h5⟩, h6⟩, h7⟩, h8⟩, h9⟩
  have hmap : r.map backslashToSlash = r := mapB_eq_self r hnb
  have hcol : collapseSlashes r = r := collapse_eq_self r mdup
  have hdls : dropLeadingSlashes r = r := by
    cases r with
    | nil => rfl
    | cons c t =>
      have hcslash : (c == '/') = false := by
        cases hcc : c == '/' with
        | false => rfl
        | true =>
          exfalso
          have hcq : c = '/' := beq_iff_eq.mp hcc
          subst hcq
          exact Bool.false_ne_true hs.symm
      simp only [dropLeadingSlashes, List.dropWhile_cons, hcslash]
      simp
  have hnorm : normalizePath r = r := by
    unfold normalizePath
    rw [hmap, hcol]
    show trimChars (dropLeadingSlashes r) = r
    rw [hdls, htrim]
  rw [sanitizePathL_ok_iff]
  refine ⟨?_, hlen, hdang, ?_, hnorm⟩
  · cases r with
    | nil => exact absurd rfl hne
    | cons _ _ => rfl
  · rw [hnorm]
    cases r with
    | nil => exact absurd rfl hne
    | cons _ _ => rfl

/-- Inversion for the `String`-level sanitizer. -/
theorem sanitizePath_ok_iff (s r : String) :
    sanitizePath s = .ok r ↔ sanitizePathL s.data = .ok r.data := by
  unfold sanitizePath
  cases h : sanitizePathL s.data with
  | error e => simp [Except.map]
  | ok l =>
    simp only [Except.map, Except.ok.injEq]
    constructor
    · rintro rfl; rfl
    · intro hl
      cases r with
      | mk d => cases hl; rfl

/-! ### Claims C1, C2, C3: path sanitization -/

/-- Claim C1: the claim (and the spec) state that an input whose only
anomaly is one or more leading slashes is accepted and returned with the
leading slashes stripped.  The code disagrees: `DANGEROUS_PATTERNS`
contains the regex for leading slashes, whose own comment says these are
to be normalized, and the later `replace(/^\/+/, "")` normalization step
is unreachable for such inputs; `sanitizePath("/images/a.jpg")` throws
`InvalidPathError` instead.  The same path without the leading slash is
accepted unchanged. -/
theorem c1_leading_slash_rejected :
    sanitizePath ("/images/a.jpg") = .error .dangerousPattern ∧
    sanitizePath ("images/a.jpg") = .ok ("images/a.jpg") := ⟨rfl, rfl⟩

/-- Claim C2, counterexample to the no-leading-slash guarantee: the input
`" /a"` passes every forbidden-pattern test (it does not begin with a
slash), and normalization strips leading slashes before `trim()`, so the
trimmed result `"/a"` begins with a slash. -/
theorem c2_counterexample :
    sanitizePath (" /a") = .ok ("/a") ∧ startsWithSlash ("/a") = true := ⟨rfl, rfl⟩

/-- Claim C2 (amended): every successful sanitization output is
non-empty, at most 500 characters, contains no `..` (plain, or
percent-encoded case-insensitively, single or double), no backslashes, no
null bytes, no angle brackets and no Windows-reserved characters.  The
no-leading-slash guarantee of the original claim is dropped: when leading
whitespace precedes slashes, the output can begin with a slash (see the
counterexample). -/
theorem c2_sanitized_invariants (p r : List Char) (h : sanitizePathL p = .ok r) :
    r ≠ [] ∧ r.length ≤ 500 ∧
    matchSub exactM ['.', '.'] r = false ∧
    matchSub ciM ['%', '2', 'e', '%', '2', 'e'] r = false ∧
    matchSub ciM ['%', '2', '5', '2', 'e'] r = false ∧
    (∀ c ∈ r, c ≠ '\\' ∧ c ≠ nullChar ∧ c ≠ '<' ∧ c ≠ '>' ∧ c ≠ ':' ∧ c ≠ '"' ∧
      c ≠ '|' ∧ c ≠ '?' ∧ c ≠ '*') := by
  obtain ⟨h1, h2, h3, h4, h5, -, h7, -⟩ := sanitize_ok_props p r h
  exact ⟨h1, h2, h3, h4, h5, h7⟩

/-- Witness for C2 at the concrete input `"images/a.jpg"`. -/
theorem c2_witness :
    ("images/a.jpg").data ≠ [] ∧ ("images/a.jpg").data.length ≤ 500 ∧
    matchSub exactM ['.', '.'] ("images/a.jpg").data = false ∧
    matchSub ciM ['%', '2', 'e', '%', '2', 'e'] ("images/a.jpg").data = false ∧
    matchSub ciM ['%', '2', '5', '2', 'e'] ("images/a.jpg").data = false ∧
    (∀ c ∈ ("images/a.jpg").data, c ≠ '\\' ∧ c ≠ nullChar ∧ c ≠ '<' ∧ c ≠ '>' ∧
      c ≠ ':' ∧ c ≠ '"' ∧ c ≠ '|' ∧ c ≠ '?' ∧ c ≠ '*') :=
  c2_sanitized_invariants (("images/a.jpg").data) (("images/a.jpg").data) rfl

/-- Claim C3, counterexample to unrestricted idempotence: sanitization
succeeds on `" /a"` with output `"/a"`, but sanitizing that output fails
with the dangerous-pattern error (leading slash), so
`sanitize(sanitize(" /a"))` is not `sanitize(" /a")`. -/
theorem c3_counterexample :
    sanitizePath (" /a") = .ok ("/a") ∧
    sanitizePath ("/a") = .error .dangerousPattern := ⟨rfl, rfl⟩

/-- Claim C3 (amended): sanitization is idempotent on every success whose
output does not begin with a slash — re-sanitizing such an output
succeeds and returns it unchanged. -/
theorem c3_sanitize_idempotent (p r : List Char) (h : sanitizePathL p = .ok r)
    (hs : startsWithSlashL r = false) : sanitizePathL r = .ok r :=
  sanitize_fix p r h hs

/-- Witness for C3: sanitizing `"images//b.jpg"` gives `"images/b.jpg"`,
and re-sanitizing that output returns it unchanged. -/
theorem c3_witness :
    sanitizePathL (("images/b.jpg").data) = .ok (("images/b.jpg").data) :=
  c3_sanitize_idempotent (("images//b.jpg").data) (("images/b.jpg").data) rfl rfl

/-! ### Claims C4, C5: primary URL shape and provider selection -/

/-- A configuration with primary provider identifier `demo`, used by the
resolution claims. -/
def demoConfig : MediaConfig :=
  { imageKitId := ("demo"), supabaseUrl := ("https://xyz.supabase.co"),
    bucketName := ("uploads") }

/-- The same configuration with `forceBackupMode` enabled. -/
def backupConfig : MediaConfig :=
  { imageKitId := ("demo"), supabaseUrl := ("https://xyz.supabase.co"),
    bucketName := ("uploads"), forceBackupMode := true }

/-- Claim C4: with primary provider identifier `demo`,
`getMediaUrl("images/a.jpg", width 800, quality 85, format webp, fit
cover)` yields exactly the claimed primary URL; and with every directive
present (width, height, quality, fit, focal, format, dpr above 1, blur,
sharpen) the transform segment joins them in the fixed source order,
omitting nothing. -/
theorem c4_primary_url :
    (getMediaUrl (some demoConfig) ("images/a.jpg")
        { width := some 800, quality := some 85, format := some ("webp"),
          fit := some ("cover") }).map OptimizedMedia.src
      = .ok ("https://ik.imagekit.io/demo/tr:w-800,q-85,c-maintain_ratio,f-webp/images/a.jpg") ∧
    imagekitGenerateUrl ("demo") ("images/a.jpg")
        { width := some 800, height := some 600, quality := some 85,
          format := some .webp, fit := some .contain, focal := some .face,
          dpr := some 2, blur := some 5, sharpen := some true }
      = ("https://ik.imagekit.io/demo/tr:w-800,h-600,q-85,c-at_max,fo-face,f-webp,dpr-2,bl-5,e-sharpen/images/a.jpg") ∧
    imagekitGenerateUrl ("demo") ("images/a.jpg")
        { quality := some 80, fit := some .cover, format := some .auto, dpr := some 1 }
      = ("https://ik.imagekit.io/demo/tr:q-80,c-maintain_ratio/images/a.jpg") :=
  ⟨rfl, rfl, rfl⟩

/-- Claim C5: on every success of `getMediaUrl`, the result is determined
by the force-backup selection policy: with `forceBackupMode` on, `src`
and `fallbackSrc` are both the backup-generated URL and the provider is
the backup; with it off, `src` is the primary adapter output,
`fallbackSrc` the backup adapter output, and the provider the primary. -/
theorem c5_provider_selection (c : MediaConfig) (path : String) (opts : RawOpts)
    (r : OptimizedMedia) (h : getMediaUrl (some c) path opts = .ok r) :
    ∃ sp v, sanitizePath path = .ok sp ∧ validateOptions opts = .ok v ∧
      ((c.forceBackupMode = true →
          r.src = supabaseGenerateUrl c.supabaseUrl c.bucketName sp (mergeDefaults v) ∧
          r.fallbackSrc = r.src ∧ r.provider = .supabase) ∧
       (c.forceBackupMode = false →
          r.src = imagekitGenerateUrl c.imageKitId sp (mergeDefaults v) ∧
          r.fallbackSrc = supabaseGenerateUrl c.supabaseUrl c.bucketName sp (mergeDefaults v) ∧
          r.provider = .imagekit)) := by
  cases hs : sanitizePath path with
  | error e =>
    exfalso
    unfold getMediaUrl at h
    rw [hs] at h
    simp at h
  | ok sp =>
    have h1 : resolveWithConfig c sp opts = .ok r := by
      unfold getMediaUrl at h
      rw [hs] at h
      exact h
    cases hv : validateOptions opts with
    | error errs =>
      exfalso
      unfold resolveWithConfig at h1
      rw [hv] at h1
      simp at h1
    | ok v =>
      have h2 : (if c.forceBackupMode then
          (.ok { src := supabaseGenerateUrl c.supabaseUrl c.bucketName sp (mergeDefaults v),
                 fallbackSrc := supabaseGenerateUrl c.supabaseUrl c.bucketName sp (mergeDefaults v),
                 provider := .supabase } : Except MediaError OptimizedMedia)
        else
          .ok { src := imagekitGenerateUrl c.imageKitId sp (mergeDefaults v),
                fallbackSrc := supabaseGenerateUrl c.supabaseUrl c.bucketName sp (mergeDefaults v),
                provider := .imagekit }) = .ok r := by
        unfold resolveWithConfig at h1
        rw [hv] at h1
        exact h1
      refine ⟨sp, v, rfl, rfl, ?_, ?_⟩
      · intro hf
        rw [hf] at h2
        simp only [if_true] at h2
        simp only [Except.ok.injEq] at h2
        subst h2
        exact ⟨rfl, rfl, rfl⟩
      · intro hf
        rw [hf] at h2
        simp only [Bool.false_eq_true, if_false] at h2
        simp only [Except.ok.injEq] at h2
        subst h2
        exact ⟨rfl, rfl, rfl⟩

/-- The backup URL of `backupConfig` for path `x.jpg` with default
options. -/
def forcedResult : OptimizedMedia :=
  { src := "https://xyz.supabase.co/storage/v1/render/image/public/uploads/x.jpg?quality=80&resize=cover",
    fallbackSrc := "https://xyz.supabase.co/storage/v1/render/image/public/uploads/x.jpg?quality=80&resize=cover",
    provider := .supabase }

/-- Witness for C5 at `backupConfig`, path `x.jpg`, default options. -/
theorem c5_witness :
    ∃ sp v, sanitizePath ("x.jpg") = .ok sp ∧ validateOptions {} = .ok v ∧
      ((backupConfig.forceBackupMode = true →
          forcedResult.src = supabaseGenerateUrl backupConfig.supabaseUrl
            backupConfig.bucketName sp (mergeDefaults v) ∧
          forcedResult.fallbackSrc = forcedResult.src ∧
          forcedResult.provider = .supabase) ∧
       (backupConfig.forceBackupMode = false →
          forcedResult.src = imagekitGenerateUrl backupConfig.imageKitId sp (mergeDefaults v) ∧
          forcedResult.fallbackSrc = supabaseGenerateUrl backupConfig.supabaseUrl
            backupConfig.bucketName sp (mergeDefaults v) ∧
          forcedResult.provider = .imagekit)) :=
  c5_provider_selection backupConfig ("x.jpg") {} forcedResult rfl

/-! ### Claim C6: backup adapter refinement against the spec wording -/

/-- Query parameters of the Backup adapter exactly as worded in the spec
(§4.4), used only as the reference side of the C6 refinement theorem:
one parameter for each present option among width, height, quality,
format (omitted when `auto`) and resize (the fit value verbatim). -/
def backupSpecParams (o : TransformOpts) : List String :=
  (match o.width with
    | some w => ["width=" ++ Nat.repr w]
    | none => []) ++
  (match o.height with
    | some h => ["height=" ++ Nat.repr h]
    | none => []) ++
  (match o.quality with
    | some q => ["quality=" ++ Nat.repr q]
    | none => []) ++
  (match o.format with
    | some f => if f = ImgFormat.auto then [] else ["format=" ++ formatStr f]
    | none => []) ++
  (match o.fit with
    | some f => ["resize=" ++ fitStr f]
    | none => [])

/-- The Backup adapter contract as worded in the spec (§4.4): always
strip a leading slash from the path, base URL
`backupOrigin/storage/v1/render/image/public/bucketName/path`, append the
parameters of `backupSpecParams`, and omit the query string entirely when
no parameter was set.  The focal, dpr, blur and sharpen options are never
consulted. -/
def backupUrlSpec (backupOrigin bucketName path : String) (o : TransformOpts) : String :=
  let p := if startsWithSlash path then dropFirst path else path
  let base := backupOrigin ++ "/storage/v1/render/image/public/" ++ bucketName ++ "/" ++ p
  if (backupSpecParams o).isEmpty then base
  else base ++ "?" ++ joinSep ("&") (backupSpecParams o)

/-- Claim C6: for truthy option values (the only ones validation lets
through), the Supabase adapter of the code computes exactly the URL the
spec describes: stripped leading slash, fixed base, parameters only for
present options among width, height, quality, format (omitted when
`auto`) and resize (fit verbatim), query string omitted when empty, and
no dependence on focal, dpr, blur or sharpen. -/
theorem c6_backup_refines_spec (s b path : String) (o : TransformOpts)
    (hw : o.width ≠ some 0) (hh : o.height ≠ some 0) (hq : o.quality ≠ some 0) :
    supabaseGenerateUrl s b path o = backupUrlSpec s b path o := by
  obtain ⟨w, h, q, fmt, fit, fo, d, bl, sh⟩ := o
  simp only [Option.some.injEq, ne_eq] at hw hh hq
  rcases w with - | wv <;> rcases h with - | hv <;> rcases q with - | qv <;>
    rcases fmt with - | fv <;> rcases fit with - | fitv <;>
      simp_all [supabaseGenerateUrl, backupUrlSpec, supabaseParams, backupSpecParams,
        joinSep, apply_ite (List.map (fun kv : String × String => kv.1 ++ "=" ++ kv.2)),
        apply_ite List.isEmpty, apply_ite (joinSep ("&"))]

/-- Witness for C6 at a concrete adapter input with a leading slash,
format webp and fit contain. -/
theorem c6_witness :
    supabaseGenerateUrl ("https://xyz.supabase.co") ("uploads") ("/a.png")
        { width := some 320, format := some .webp, fit := some .contain }
      = backupUrlSpec ("https://xyz.supabase.co") ("uploads") ("/a.png")
        { width := some 320, format := some .webp, fit := some .contain } :=
  c6_backup_refines_spec ("https://xyz.supabase.co") ("uploads") ("/a.png")
    { width := some 320, format := some .webp, fit := some .contain }
    (by simp) (by simp) (by simp)

/-! ### Claim C7: responsive srcset -/

/-- The `src` of a resolution result, empty string on error (total
extractor used only to state C7; the claim theorem separately asserts
that every per-width resolution succeeded). -/
def srcOf : Except MediaError OptimizedMedia → String
  | .ok r => r.src
  | .error _ => ""

theorem srcSetEntries_spec (c : MediaConfig) (sp : String) (opts : RawOpts) :
    ∀ (ws : List ℕ) (es : List String), srcSetEntries c sp opts ws = .ok es →
      (∀ w ∈ ws, ∃ r, getMediaUrl (some c) sp (setWidth opts w) = .ok r) ∧
      es = ws.map (fun w =>
        srcOf (getMediaUrl (some c) sp (setWidth opts w)) ++ " " ++ Nat.repr w ++ "w") := by
  intro ws
  induction ws with
  | nil =>
    intro es h
    simp only [srcSetEntries, Except.ok.injEq] at h
    subst h
    exact ⟨by simp, by simp⟩
  | cons w ws ih =>
    intro es h
    unfold srcSetEntries at h
    cases hg : getMediaUrl (some c) sp (setWidth opts w) with
    | error e => rw [hg] at h; simp at h
    | ok r =>
      rw [hg] at h
      cases hrest : srcSetEntries c sp opts ws with
      | error e => rw [hrest] at h; simp at h
      | ok rest =>
        rw [hrest] at h
        simp only [Except.ok.injEq] at h
        obtain ⟨h1, h2⟩ := ih rest hrest
        subst h
        refine ⟨?_, ?_⟩
        · intro w' hw'
          rcases List.mem_cons.mp hw' with rfl | hw'
          · exact ⟨r, hg⟩
          · exact h1 w' hw'
        · rw [List.map_cons, hg, ← h2]
          rfl

/-- Claim C7: whenever `getResponsiveSrcSet` succeeds on a non-empty
width list, every per-width `getMediaUrl` on the same path (options
extended by that width) succeeds, and the result is exactly their `src`
fields formatted `url NNNw` and joined by comma-space, in the given
width order. -/
theorem c7_srcset (c : MediaConfig) (path : String) (opts : RawOpts)
    (widths : List ℕ) (s : String) (hne : widths ≠ [])
    (h : getResponsiveSrcSet (some c) path opts widths = .ok s) :
    (∀ w ∈ widths, ∃ r, getMediaUrl (some c) path (setWidth opts w) = .ok r) ∧
    s = joinSep (", ") (widths.map (fun w =>
      srcOf (getMediaUrl (some c) path (setWidth opts w)) ++ " " ++ Nat.repr w ++ "w")) := by
  cases hs : sanitizePath path with
  | error e =>
    exfalso
    unfold getResponsiveSrcSet at h
    rw [hs] at h
    simp at h
  | ok sp =>
    have h1 : (match srcSetEntries c sp opts widths with
        | .error e => (.error e : Except MediaError String)
        | .ok entries => .ok (joinSep (", ") entries)) = .ok s := by
      unfold getResponsiveSrcSet at h
      rw [hs] at h
      exact h
    cases hent : srcSetEntries c sp opts widths with
    | error e => rw [hent] at h1; simp at h1
    | ok entries =>
      rw [hent] at h1
      simp only [Except.ok.injEq] at h1
      obtain ⟨hall, hmap⟩ := srcSetEntries_spec c sp opts widths entries hent
      -- sanitizing the already sanitized path is the identity
      have hfix : sanitizePath sp = .ok sp := by
        cases widths with
        | nil => exact absurd rfl hne
        | cons w0 ws0 =>
          obtain ⟨r0, hr0⟩ := hall w0 (List.mem_cons_self w0 ws0)
          cases hsp : sanitizePath sp with
          | error e =>
            exfalso
            unfold getMediaUrl at hr0
            rw [hsp] at hr0
            simp at hr0
          | ok sp2 =>
            have hL : sanitizePathL sp.data = .ok sp2.data :=
              (sanitizePath_ok_iff sp sp2).mp hsp
            have hnoslash : startsWithSlashL sp.data = false := by
              have hd := ((sanitizePathL_ok_iff sp.data sp2.data).mp hL).2.2.1
              exact (dangerous_parts sp.data hd).2.2.2.2.1
            have hPL : sanitizePathL path.data = .ok sp.data :=
              (sanitizePath_ok_iff path sp).mp hs
            have hLfix : sanitizePathL sp.data = .ok sp.data :=
              sanitize_fix path.data sp.data hPL hnoslash
            rw [hL] at hLfix
            simp only [Except.ok.injEq] at hLfix
            have hss : sp2 = sp := congrArg String.mk hLfix
            rw [hss]
      have htrans : ∀ o : RawOpts,
          getMediaUrl (some c) path o = getMediaUrl (some c) sp o := by
        intro o
        unfold getMediaUrl
        rw [hs, hfix]
      simp only [htrans]
      exact ⟨hall, by rw [← h1, hmap]⟩

/-- Witness for C7: `demoConfig`, path `x.jpg`, widths 320 and 640 —
exactly two comma-space-joined entries in the given order. -/
theorem c7_witness :
    (∀ w ∈ ([320, 640] : List ℕ), ∃ r,
        getMediaUrl (some demoConfig) ("x.jpg") (setWidth {} w) = .ok r) ∧
    ("https://ik.imagekit.io/demo/tr:w-320,q-80,c-maintain_ratio/x.jpg 320w, https://ik.imagekit.io/demo/tr:w-640,q-80,c-maintain_ratio/x.jpg 640w")
      = joinSep (", ") (([320, 640] : List ℕ).map (fun w =>
          srcOf (getMediaUrl (some demoConfig) ("x.jpg") (setWidth {} w)) ++ " " ++
            Nat.repr w ++ "w")) :=
  c7_srcset demoConfig ("x.jpg") {} [320, 640]
    ("https://ik.imagekit.io/demo/tr:w-320,q-80,c-maintain_ratio/x.jpg 320w, https://ik.imagekit.io/demo/tr:w-640,q-80,c-maintain_ratio/x.jpg 640w")
    (by simp) rfl

/-! ### Claim C8: width validation -/

/-- A raw option record with only `width` set. -/
def onlyWidth (w : ℚ) : RawOpts := { width := some w }

/-- Claim C8: width validation accepts exactly the integers in 1..4000.
For an integral rational in range, validation of a width-only record
succeeds, and the width value is carried unchanged (the stored natural
equals the input, and the defaults merge keeps it); for any other value —
zero, 4001, out of range, or non-integral — it fails with the width
issue. -/
theorem c8_width_validation (w : ℚ) :
    ((w.den = 1 ∧ (1 : ℚ) ≤ w ∧ w ≤ (4000 : ℚ)) →
      validateOptions (onlyWidth w) = .ok { width := some w.num.toNat } ∧
      ((w.num.toNat : ℚ) = w) ∧
      (mergeDefaults { width := some w.num.toNat }).width = some w.num.toNat) ∧
    (¬ (w.den = 1 ∧ (1 : ℚ) ≤ w ∧ w ≤ (4000 : ℚ)) →
      validateOptions (onlyWidth w) = .error [("width")]) := by
  have hnum : w.den = 1 → (w.num : ℚ) = w := fun hd => by
    have hq := Rat.num_div_den w
    rw [hd] at hq
    simpa using hq
  have hbridge : (w.den = 1 ∧ (1 : ℚ) ≤ w ∧ w ≤ (4000 : ℚ)) ↔
      (w.den = 1 ∧ 1 ≤ w.num ∧ w.num ≤ 4000) := by
    constructor
    · rintro ⟨hd, hlo, hhi⟩
      rw [← hnum hd] at hlo hhi
      exact ⟨hd, by exact_mod_cast hlo, by exact_mod_cast hhi⟩
    · rintro ⟨hd, hlo, hhi⟩
      refine ⟨hd, ?_, ?_⟩
      · rw [← hnum hd]; exact_mod_cast hlo
      · rw [← hnum hd]; exact_mod_cast hhi
  constructor
  · intro hq
    obtain ⟨hd, hlo, hhi⟩ := hbridge.mp hq
    have herrs : optionErrs (onlyWidth w) = [] := by
      simp only [optionErrs, onlyWidth, intFieldErrs, enumFieldErrs, dprFieldErrs,
        List.append_nil, List.nil_append]
      rw [if_pos ⟨hd, hlo, hhi⟩]
    refine ⟨?_, ?_, rfl⟩
    · unfold validateOptions
      rw [herrs]
      simp [onlyWidth, intFieldVal, enumFieldVal]
    · rw [← hnum hd]
      have h0 : (0 : ℤ) ≤ w.num := le_trans (by norm_num) hlo
      exact_mod_cast congrArg (fun z : ℤ => (z : ℚ)) (Int.toNat_of_nonneg h0)
  · intro hq
    have hc : ¬ (w.den = 1 ∧ 1 ≤ w.num ∧ w.num ≤ 4000) := fun hx => hq (hbridge.mpr hx)
    have herrs : optionErrs (onlyWidth w) = [("width")] := by
      simp only [optionErrs, onlyWidth, intFieldErrs, enumFieldErrs, dprFieldErrs,
        List.append_nil, List.nil_append]
      rw [if_neg hc]
    unfold validateOptions
    rw [herrs]
    rfl

/-- Witness for C8 at widths 800 (accepted, preserved) and 4001
(rejected). -/
theorem c8_witness :
    (validateOptions (onlyWidth 800) = .ok { width := some (800 : ℚ).num.toNat } ∧
      (((800 : ℚ).num.toNat : ℚ) = (800 : ℚ)) ∧
      (mergeDefaults { width := some (800 : ℚ).num.toNat }).width
        = some (800 : ℚ).num.toNat) ∧
    validateOptions (onlyWidth 4001) = .error [("width")] :=
  ⟨(c8_width_validation 800).1 (by refine ⟨rfl, ?_, ?_⟩ <;> norm_num),
   (c8_width_validation 4001).2 (by intro hx; have := hx.2.2; norm_num at this)⟩

/-! ### Claim C9: unconfigured resolution -/

/-- Claim C9: with the configuration store uninitialized, every
resolution entry point fails with the not-configured error, for every
path, option record and width list — in particular no sanitization or
validation outcome is ever consulted and no URL is produced. -/
theorem c9_not_configured (path : String) (opts : RawOpts) (widths : List ℕ) :
    getMediaUrl none path opts = .error .notConfigured ∧
    getResponsiveSrcSet none path opts widths = .error .notConfigured ∧
    getOptimizedMedia none path opts = .error .notConfigured := ⟨rfl, rfl, rfl⟩

/-! ### Claim C10: force-backup results ignore focal, dpr, blur, sharpen -/

theorem validateOptions_ok_shape (o : RawOpts) (v : TransformOpts)
    (h : validateOptions o = .ok v) :
    v.width = intFieldVal o.width ∧ v.height = intFieldVal o.height ∧
    v.quality = intFieldVal o.quality ∧ v.format = enumFieldVal parseFormat o.format ∧
    v.fit = enumFieldVal parseFit o.fit := by
  unfold validateOptions at h
  by_cases hc : (optionErrs o).isEmpty
  · rw [if_pos hc] at h
    simp only [Except.ok.injEq] at h
    subst h
    exact ⟨rfl, rfl, rfl, rfl, rfl⟩
  · rw [if_neg hc] at h
    simp at h

theorem supabase_congr (s b p : String) (a1 a2 : TransformOpts)
    (e1 : a1.width = a2.width) (e2 : a1.height = a2.height)
    (e3 : a1.quality = a2.quality) (e4 : a1.format = a2.format)
    (e5 : a1.fit = a2.fit) :
    supabaseGenerateUrl s b p a1 = supabaseGenerateUrl s b p a2 := by
  unfold supabaseGenerateUrl supabaseParams
  rw [e1, e2, e3, e4, e5]

/-- Claim C10: under `forceBackupMode`, the resolution result is
independent of the focal, dpr, blur and sharpen options — two valid
option records that agree on width, height, quality, format and fit give
identical results on every path, because the backup URL never encodes the
other options. -/
theorem c10_force_backup_ignores_extras (c : MediaConfig) (path : String)
    (o1 o2 : RawOpts) (v1 v2 : TransformOpts)
    (hf : c.forceBackupMode = true)
    (h1 : validateOptions o1 = .ok v1) (h2 : validateOptions o2 = .ok v2)
    (hw : o1.width = o2.width) (hh : o1.height = o2.height)
    (hq : o1.quality = o2.quality) (hfmt : o1.format = o2.format)
    (hfit : o1.fit = o2.fit) :
    getMediaUrl (some c) path o1 = getMediaUrl (some c) path o2 := by
  obtain ⟨w1, x1, y1, z1, t1⟩ := validateOptions_ok_shape o1 v1 h1
  obtain ⟨w2, x2, y2, z2, t2⟩ := validateOptions_ok_shape o2 v2 h2
  have hb : ∀ sp : String,
      supabaseGenerateUrl c.supabaseUrl c.bucketName sp (mergeDefaults v1)
        = supabaseGenerateUrl c.supabaseUrl c.bucketName sp (mergeDefaults v2) := by
    intro sp
    apply supabase_congr
    · show v1.width = v2.width
      rw [w1, w2, hw]
    · show v1.height = v2.height
      rw [x1, x2, hh]
    · show some (v1.quality.getD 80) = some (v2.quality.getD 80)
      rw [y1, y2, hq]
    · show some (v1.format.getD .auto) = some (v2.format.getD .auto)
      rw [z1, z2, hfmt]
    · show some (v1.fit.getD .cover) = some (v2.fit.getD .cover)
      rw [t1, t2, hfit]
  unfold getMediaUrl
  cases hs : sanitizePath path with
  | error e => rfl
  | ok sp =>
    show resolveWithConfig c sp o1 = resolveWithConfig c sp o2
    simp only [resolveWithConfig, h1, h2, hf, if_true]
    rw [hb sp]

/-- Witness for C10: with `backupConfig`, the default options and an
option record adding focal face, dpr 2, blur 5 and sharpen give the same
result on `x.jpg`. -/
theorem c10_witness :
    getMediaUrl (some backupConfig) ("x.jpg") {}
      = getMediaUrl (some backupConfig) ("x.jpg")
          { focal := some ("face"), dpr := some 2, blur := some 5,
            sharpen := some true } :=
  c10_force_backup_ignores_extras backupConfig ("x.jpg") {}
    { focal := some ("face"), dpr := some 2, blur := some 5, sharpen := some true }
    {} { focal := some FocalMode.face, dpr := some 2, blur := some 5,
         sharpen := some true }
    rfl rfl rfl rfl rfl rfl rfl rfl

end MediaOptimizer
